import Mathlib

/-!
Shallow embedding of the user-directory service in `src/main.py`.

The service keeps one in-memory list of user records (`users_db`) and
exposes CRUD handlers plus search and statistics over it.  Python objects
are dynamic: pydantic's `copy(update=...)` (used by `update_user`) writes
update values into the stored record without re-validation, so a stored
field can hold `None` even when the declared model marks it required.
Every stored field is therefore embedded as an `Option`, mirroring what
the Python runtime can actually hold; validated construction always
produces `some` values.
-/

/-- Roles of `class UserRole(str, Enum)` in `src/main.py`. -/
inductive UserRole where
  | ADMIN
  | USER
  | GUEST
deriving DecidableEq, BEq

/-- A stored user record (`class User` in `src/main.py`).  Fields other
than `id` are `Option`s because `update_user` can overwrite them with
`None` via `copy(update=...)`, which skips validation. -/
structure User where
  id : Int
  name : Option String
  email : Option String
  age : Option Int
  role : Option UserRole
  is_active : Option Bool
deriving DecidableEq

/-- Payload of `class UserCreate`: `name`, `email`, optional `age`, and
`role` (whose default `user` is filled in at parse time). -/
structure UserCreate where
  name : String
  email : String
  age : Option Int
  role : UserRole
deriving DecidableEq

/-- Payload of `class UserUpdate`.  The outer `Option` records whether the
field was present in the request body (pydantic's unset tracking, read by
`dict(exclude_unset=True)`); the inner `Option` is the field's value,
which may itself be an explicit `null`. -/
structure UserUpdate where
  name : Option (Option String)
  email : Option (Option String)
  age : Option (Option Int)
  role : Option (Option UserRole)
  is_active : Option (Option Bool)
deriving DecidableEq

/-- Response body of `class Message`. -/
structure Message where
  message : String
  status_code : Int
deriving DecidableEq

/-- The two HTTP-level error kinds raised by the handlers. -/
inductive ApiError where
  | notFound
  | validationError
deriving DecidableEq

/-- Constraint on `name` from `Field(..., min_length=2, max_length=50)`. -/
def validName (s : String) : Bool :=
  2 ≤ s.length && s.length ≤ 50

/-- Constraint on `age` from `Field(None, ge=0, le=120)`. -/
def validAge (a : Int) : Bool :=
  0 ≤ a && a ≤ 120

/-- Pydantic validation of a `UserCreate` body: `name` length in [2,50],
`age` in [0,120] when given.  `email` is free-form; `role` is already a
member of the closed enumeration. -/
def UserCreate.valid (c : UserCreate) : Bool :=
  validName c.name &&
    (match c.age with
     | none => true
     | some a => validAge a)

/-- Pydantic validation of a `UserUpdate` body: the constraints apply to a
field only when it is present with a non-null value (each field's
declared type is `Optional`, so explicit `null` passes). -/
def UserUpdate.valid (u : UserUpdate) : Bool :=
  (match u.name with
   | some (some s) => validName s
   | _ => true) &&
    (match u.age with
     | some (some a) => validAge a
     | _ => true)

/-- Embeds `existing_user.copy(update=user_update.dict(exclude_unset=True))`:
every field present in the update payload overwrites the stored field
with its raw value (no re-validation); absent fields keep the stored
value; `id` is not a `UserUpdate` field, so it is never touched. -/
def UserUpdate.applyTo (upd : UserUpdate) (u : User) : User :=
  { id := u.id
    name := upd.name.getD u.name
    email := upd.email.getD u.email
    age := upd.age.getD u.age
    role := upd.role.getD u.role
    is_active := upd.is_active.getD u.is_active }

/-- The seeded `users_db` (three records, ids 1-3). -/
def seedDb : List User :=
  [ { id := 1, name := some "김철수", email := some "kim@example.com",
      age := some 25, role := some UserRole.USER, is_active := some true },
    { id := 2, name := some "이영희", email := some "lee@example.com",
      age := some 30, role := some UserRole.ADMIN, is_active := some true },
    { id := 3, name := some "박민수", email := some "park@example.com",
      age := some 22, role := some UserRole.USER, is_active := some true } ]

/-- Embeds `next((user for user in users_db if user.id == user_id), None)`:
the first record whose id matches. -/
def findUser (userId : Int) : List User → Option User
  | [] => none
  | u :: rest => if u.id == userId then some u else findUser userId rest

/-- Embeds `next((i for i, user in enumerate(users_db) if user.id == user_id), None)`:
the index of the first record whose id matches. -/
def findUserIdx (userId : Int) : List User → Option Nat
  | [] => none
  | u :: rest =>
      if u.id == userId then some 0 else (findUserIdx userId rest).map (· + 1)

/-- Handler `get_user`: returns the record or raises 404. -/
def get_user (userId : Int) (db : List User) : Except ApiError User :=
  match findUser userId db with
  | none => Except.error ApiError.notFound
  | some u => Except.ok u

/-- Embeds `max([u.id for u in users_db]) + 1 if users_db else 1`. -/
def newUserId (db : List User) : Int :=
  match db with
  | [] => 1
  | u :: rest => rest.foldl (fun m v => max m v.id) u.id + 1

/-- Handler `create_user` (after the body has been validated): builds
`User(id=new_id, **user.dict())` — `is_active` takes its declared default
`True` — appends it and returns it.  Result: (new collection, created
record). -/
def create_user (c : UserCreate) (db : List User) : List User × User :=
  let newUser : User :=
    { id := newUserId db, name := some c.name, email := some c.email,
      age := c.age, role := some c.role, is_active := some true }
  (db ++ [newUser], newUser)

/-- The `POST /users` endpoint: the framework validates the body before
the handler runs; an invalid body yields a 422 and the collection is
untouched.  Result: (collection after the request, outcome). -/
def post_users (c : UserCreate) (db : List User) :
    List User × Except ApiError User :=
  if c.valid then
    let r := create_user c db
    (r.1, Except.ok r.2)
  else
    (db, Except.error ApiError.validationError)

/-- Handler `update_user` (after the body has been validated): 404 when
the id is absent, otherwise replaces the record at the found index by the
merge `existing_user.copy(update=...)` and returns it.  Result on
success: (new collection, updated record).  The inner `none` branch is
unreachable: `findUserIdx` only returns indices into the list. -/
def update_user (userId : Int) (upd : UserUpdate) (db : List User) :
    Except ApiError (List User × User) :=
  match findUserIdx userId db with
  | none => Except.error ApiError.notFound
  | some i =>
      match db[i]? with
      | none => Except.error ApiError.notFound
      | some existing =>
          let updated := upd.applyTo existing
          Except.ok (db.set i updated, updated)

/-- Handler `delete_user`: 404 when the id is absent, otherwise
`users_db.pop(user_index)` and a confirmation `Message` whose text embeds
the deleted id, with `status_code=200`. -/
def delete_user (userId : Int) (db : List User) :
    Except ApiError (List User × Message) :=
  match findUserIdx userId db with
  | none => Except.error ApiError.notFound
  | some i =>
      Except.ok (db.eraseIdx i,
        { message := "사용자 ID " ++ toString userId ++ "가 삭제되었습니다",
          status_code := 200 })

/-- Python's `pat in s` on strings, over the character lists: `pat`
occurs contiguously somewhere in `l` (the empty pattern always does). -/
def charsContain (pat : List Char) : List Char → Bool
  | [] => pat.isPrefixOf ([] : List Char)
  | c :: rest => pat.isPrefixOf (c :: rest) || charsContain pat rest

/-- Embeds `name.lower() in u.name.lower()`: case-insensitive substring test.
When the stored name is `None` the Python expression raises; that case is
handled by the caller (`search_users`), so here it only needs a value for
totality. -/
def nameMatches (s : String) (u : User) : Bool :=
  match u.name with
  | some n => charsContain s.toLower.data n.toLower.data
  | none => false

/-- Embeds `u.age and u.age >= min_age`: Python truthiness of the age (absent or
zero age is falsy) conjoined with the comparison. -/
def agePassesMin (age : Option Int) (minAge : Int) : Bool :=
  match age with
  | none => false
  | some a => a != 0 && minAge ≤ a

/-- Embeds `u.age and u.age <= max_age`: Python truthiness of the age (absent or
zero age is falsy) conjoined with the comparison. -/
def agePassesMax (age : Option Int) (maxAge : Int) : Bool :=
  match age with
  | none => false
  | some a => a != 0 && a ≤ maxAge

/-- Handler `search_users`: copies the collection, then applies the four
filters in sequence.  `if name:` is Python truthiness, so an absent or
empty `name` skips the name filter; `if role:` is equivalent to a
presence test because every enum member is truthy; the age filters fire
on `is not None`.  When the name filter runs and some record's stored
name is `None`, `u.name.lower()` raises an uncaught `AttributeError`,
modelled as `Except.error ()`. -/
def search_users (name : Option String) (role : Option UserRole)
    (minAge maxAge : Option Int) (db : List User) :
    Except Unit (List User) :=
  let step1 : Except Unit (List User) :=
    match name with
    | none => Except.ok db
    | some s =>
        if s == "" then Except.ok db
        else if db.all (fun u => u.name.isSome) then
          Except.ok (db.filter (nameMatches s))
        else Except.error ()
  match step1 with
  | Except.error e => Except.error e
  | Except.ok l1 =>
      let l2 := match role with
        | none => l1
        | some r => l1.filter (fun u => u.role == some r)
      let l3 := match minAge with
        | none => l2
        | some m => l2.filter (fun u => agePassesMin u.age m)
      let l4 := match maxAge with
        | none => l3
        | some m => l3.filter (fun u => agePassesMax u.age m)
      Except.ok l4

/-- The statistics payload returned by `get_stats`. -/
structure Stats where
  total_users : Nat
  active_users : Nat
  inactive_users : Nat
  role_distribution : List (Option UserRole × Nat)
deriving DecidableEq

/-- One step of the `role_counts` loop:
`role_counts[user.role] = role_counts.get(user.role, 0) + 1` on an
insertion-ordered dict, embedded as an association list. -/
def bumpRole : List (Option UserRole × Nat) → Option UserRole →
    List (Option UserRole × Nat)
  | [], r => [(r, 1)]
  | (k, n) :: rest, r =>
      if k = r then (k, n + 1) :: rest else (k, n) :: bumpRole rest r

/-- Dict lookup on the embedded `role_counts`. -/
def getCount (acc : List (Option UserRole × Nat)) (r : Option UserRole) :
    Option Nat :=
  match acc with
  | [] => none
  | (k, n) :: rest => if k = r then some n else getCount rest r

/-- Handler `get_stats`: total, active (`if u.is_active` — truthiness, so
only `True` counts), inactive = total - active, and the role histogram
built by the loop. -/
def get_stats (db : List User) : Stats :=
  let total := db.length
  let active := (db.filter (fun u => u.is_active == some true)).length
  { total_users := total
    active_users := active
    inactive_users := total - active
    role_distribution := db.foldl (fun acc u => bumpRole acc u.role) [] }


/-- Whether a user passes the name filter of `search_users` as the source
applies it: the filter only fires for a present, non-empty `name`
parameter. -/
def passName (nameQ : Option String) (u : User) : Bool :=
  match nameQ with
  | none => true
  | some s => if s == "" then true else nameMatches s u

/-- Whether a user passes the role filter of `search_users`. -/
def passRole (roleQ : Option UserRole) (u : User) : Bool :=
  match roleQ with
  | none => true
  | some r => u.role == some r

/-- Whether a user passes the `min_age` filter of `search_users`. -/
def passMin (mn : Option Int) (u : User) : Bool :=
  match mn with
  | none => true
  | some m => agePassesMin u.age m

/-- Whether a user passes the `max_age` filter of `search_users`. -/
def passMax (mx : Option Int) (u : User) : Bool :=
  match mx with
  | none => true
  | some m => agePassesMax u.age m

/-- A partial-update body that sets only `age` (to 26). -/
def ageOnlyUpd : UserUpdate :=
  { name := none, email := none, age := some (some 26), role := none,
    is_active := none }

/-- The first seeded record after `ageOnlyUpd` has been applied. -/
def seedUser1Updated : User :=
  { id := 1, name := some "김철수", email := some "kim@example.com",
    age := some 26, role := some UserRole.USER, is_active := some true }

/-- A partial-update body whose `name` field is explicitly `null`. -/
def nullNameUpd : UserUpdate :=
  { name := some none, email := none, age := none, role := none,
    is_active := none }

/-- A record whose `age` is 0 — creatable, since the age constraint is
`[0,120]`. -/
def ageZeroUser : User :=
  { id := 9, name := some "민수", email := some "min@example.com",
    age := some 0, role := some UserRole.USER, is_active := some true }

/-- A valid creation body used as a concrete test input. -/
def demoCreate : UserCreate :=
  { name := "홍길동", email := "hong@example.com", age := some 33,
    role := UserRole.GUEST }

/-- An invalid creation body: `name` has length 1, outside `[2,50]`. -/
def badNameCreate : UserCreate :=
  { name := "A", email := "a@example.com", age := none,
    role := UserRole.USER }

/-- The second seeded record (id 2, age 30, role admin). -/
def seedUser2 : User :=
  { id := 2, name := some "이영희", email := some "lee@example.com",
    age := some 30, role := some UserRole.ADMIN, is_active := some true }

/-! ### Helper lemmas -/

instance : LawfulBEq UserRole where
  eq_of_beq := by
    intro a b h
    cases a <;> cases b <;> first | rfl | exact absurd h (by decide)
  rfl := by intro a; cases a <;> rfl

theorem findUserIdx_eq_none_iff (userId : Int) (db : List User) :
    findUserIdx userId db = none ↔ ∀ u ∈ db, u.id ≠ userId := by
  induction db with
  | nil => simp [findUserIdx]
  | cons u rest ih =>
    simp only [findUserIdx]
    by_cases h : u.id = userId
    · simp [h]
    · simp [h, Option.map_eq_none', ih]

theorem findUserIdx_eq_some (userId : Int) (db : List User) (i : Nat)
    (h : findUserIdx userId db = some i) :
    ∃ u, db[i]? = some u ∧ u.id = userId := by
  induction db generalizing i with
  | nil => simp [findUserIdx] at h
  | cons u rest ih =>
    simp only [findUserIdx] at h
    by_cases hu : u.id = userId
    · simp only [hu, beq_self_eq_true, if_true] at h
      cases h
      exact ⟨u, by simp, hu⟩
    · rw [if_neg (by simp [hu])] at h
      cases hfi : findUserIdx userId rest with
      | none => rw [hfi] at h; simp at h
      | some j =>
        rw [hfi] at h
        simp only [Option.map_some'] at h
        cases h
        obtain ⟨v, hv, hvid⟩ := ih j hfi
        exact ⟨v, by simpa using hv, hvid⟩

theorem findUser_eq_none_iff (userId : Int) (db : List User) :
    findUser userId db = none ↔ ∀ u ∈ db, u.id ≠ userId := by
  induction db with
  | nil => simp [findUser]
  | cons u rest ih =>
    simp only [findUser]
    by_cases h : u.id = userId
    · simp [h]
    · simp [h, ih]

theorem findUser_eraseIdx (userId : Int) (db : List User) (i : Nat)
    (hnd : (db.map (fun u => u.id)).Nodup)
    (h : findUserIdx userId db = some i) :
    findUser userId (db.eraseIdx i) = none := by
  induction db generalizing i with
  | nil => simp [findUserIdx] at h
  | cons u rest ih =>
    simp only [List.map_cons, List.nodup_cons] at hnd
    obtain ⟨hnotin, hnd'⟩ := hnd
    simp only [findUserIdx] at h
    by_cases hu : u.id = userId
    · simp only [hu, beq_self_eq_true, if_true] at h
      cases h
      show findUser userId rest = none
      rw [findUser_eq_none_iff]
      intro v hv hvid
      exact hnotin (by rw [hu, ← hvid]; exact List.mem_map_of_mem _ hv)
    · rw [if_neg (by simp [hu])] at h
      cases hfi : findUserIdx userId rest with
      | none => rw [hfi] at h; simp at h
      | some j =>
        rw [hfi] at h
        simp only [Option.map_some'] at h
        cases h
        show findUser userId (u :: rest.eraseIdx j) = none
        simp only [findUser, if_neg (show ¬(u.id == userId) = true by simp [hu])]
        exact ih j hnd' hfi

theorem eraseIdx_length_succ (db : List User) (i : Nat) (u : User)
    (h : db[i]? = some u) : (db.eraseIdx i).length + 1 = db.length := by
  induction db generalizing i with
  | nil => simp at h
  | cons v rest ih =>
    cases i with
    | zero => simp [List.eraseIdx]
    | succ j =>
      simp only [List.getElem?_cons_succ] at h
      simpa [List.eraseIdx] using ih j h

theorem list_set_of_getElem (l : List Int) (i : Nat) (a : Int)
    (h : l[i]? = some a) : l.set i a = l := by
  induction l generalizing i with
  | nil => simp at h
  | cons b rest ih =>
    cases i with
    | zero => simp_all
    | succ j =>
      simp only [List.getElem?_cons_succ] at h
      simp [List.set_cons_succ, ih j h]

theorem le_foldl_maxId (l : List User) (b : Int) :
    b ≤ l.foldl (fun m v => max m v.id) b := by
  induction l generalizing b with
  | nil => simp
  | cons u rest ih =>
    simp only [List.foldl_cons]
    exact le_trans (le_max_left _ _) (ih (max b u.id))

theorem mem_le_foldl_maxId (l : List User) (b : Int) (u : User) (hu : u ∈ l) :
    u.id ≤ l.foldl (fun m v => max m v.id) b := by
  induction l generalizing b with
  | nil => cases hu
  | cons v rest ih =>
    simp only [List.foldl_cons]
    rcases List.mem_cons.mp hu with h | h
    · rw [h]
      exact le_trans (le_max_right _ _) (le_foldl_maxId rest (max b v.id))
    · exact ih (max b v.id) h

theorem foldl_maxId_attained (l : List User) (b : Int) :
    l.foldl (fun m v => max m v.id) b = b ∨
      ∃ v ∈ l, l.foldl (fun m v => max m v.id) b = v.id := by
  induction l generalizing b with
  | nil => left; simp
  | cons u rest ih =>
    simp only [List.foldl_cons]
    rcases ih (max b u.id) with h | ⟨v, hv, he⟩
    · rw [h]
      rcases le_total u.id b with hle | hle
      · left; exact max_eq_left hle
      · right
        exact ⟨u, List.mem_cons_self _ _, max_eq_right hle⟩
    · right
      exact ⟨v, List.mem_cons_of_mem _ hv, he⟩

theorem mem_id_lt_newUserId (db : List User) (u : User) (hu : u ∈ db) :
    u.id < newUserId db := by
  cases db with
  | nil => cases hu
  | cons v rest =>
    show u.id < rest.foldl (fun m v => max m v.id) v.id + 1
    rcases List.mem_cons.mp hu with h | h
    · rw [h]
      exact lt_of_le_of_lt (le_foldl_maxId rest v.id) (by omega)
    · exact lt_of_le_of_lt (mem_le_foldl_maxId rest v.id u h) (by omega)

theorem newUserId_attained (db : List User) (h : db ≠ []) :
    ∃ u ∈ db, u.id + 1 = newUserId db := by
  cases db with
  | nil => exact absurd rfl h
  | cons v rest =>
    show ∃ u ∈ v :: rest, u.id + 1 = rest.foldl (fun m v => max m v.id) v.id + 1
    rcases foldl_maxId_attained rest v.id with he | ⟨w, hw, he⟩
    · exact ⟨v, List.mem_cons_self _ _, by rw [he]⟩
    · exact ⟨w, List.mem_cons_of_mem _ hw, by rw [he]⟩

theorem getCount_bumpRole (acc : List (Option UserRole × Nat))
    (r q : Option UserRole) :
    getCount (bumpRole acc r) q =
      if q = r then some ((getCount acc q).getD 0 + 1)
      else getCount acc q := by
  induction acc with
  | nil =>
    simp only [bumpRole, getCount]
    by_cases h : q = r
    · subst h; simp
    · rw [if_neg (fun e : r = q => h e.symm), if_neg h]
  | cons kv rest ih =>
    obtain ⟨k, n⟩ := kv
    simp only [bumpRole]
    by_cases hk : k = r
    · subst hk
      simp only [if_pos rfl, getCount]
      by_cases hq : k = q
      · subst hq
        simp
      · simp only [if_neg hq, if_neg (fun e : q = k => hq e.symm)]
    · rw [if_neg hk]
      simp only [getCount]
      by_cases hkq : k = q
      · subst hkq
        simp [fun e : k = r => hk e]
      · simp [hkq, ih]

theorem getCount_foldl_bumpRole (db : List User)
    (acc : List (Option UserRole × Nat)) (r : Option UserRole) :
    getCount (db.foldl (fun a u => bumpRole a u.role) acc) r =
      if db.countP (fun u => decide (u.role = r)) = 0 then getCount acc r
      else some ((getCount acc r).getD 0 +
        db.countP (fun u => decide (u.role = r))) := by
  induction db generalizing acc with
  | nil => simp
  | cons u rest ih =>
    have hc : (u :: rest).countP (fun v => decide (v.role = r)) =
        rest.countP (fun v => decide (v.role = r)) +
          (if u.role = r then 1 else 0) := by
      rw [List.countP_cons]
      by_cases h : u.role = r <;> simp [h]
    rw [List.foldl_cons, hc, ih (bumpRole acc u.role), getCount_bumpRole]
    by_cases hr : r = u.role
    · have hru : u.role = r := hr.symm
      rw [if_pos hr, if_pos hru,
        if_neg (by omega :
          ¬(rest.countP (fun v => decide (v.role = r)) + 1 = 0))]
      by_cases h0 : rest.countP (fun v => decide (v.role = r)) = 0
      · rw [if_pos h0, h0]
      · rw [if_neg h0, Option.getD_some]
        congr 1
        omega
    · have hru : ¬u.role = r := fun e => hr e.symm
      rw [if_neg hr, if_neg hru, Nat.add_zero]

theorem search_users_ok (nameQ : Option String) (roleQ : Option UserRole)
    (mn mx : Option Int) (db : List User)
    (hnames : db.all (fun u => u.name.isSome) = true) :
    search_users nameQ roleQ mn mx db =
      Except.ok ((((db.filter (fun u => passName nameQ u)).filter
        (fun u => passRole roleQ u)).filter
        (fun u => passMin mn u)).filter (fun u => passMax mx u)) := by
  cases nameQ with
  | none =>
    cases roleQ <;> cases mn <;> cases mx <;>
      simp [search_users, passName, passRole, passMin, passMax]
  | some s =>
    by_cases hs : s = ""
    · subst hs
      cases roleQ <;> cases mn <;> cases mx <;>
        simp [search_users, passName, passRole, passMin, passMax]
    · have hb : (s == "") = false := by simp [hs]
      cases roleQ <;> cases mn <;> cases mx <;>
        simp [search_users, passName, passRole, passMin, passMax, hb, hnames]

theorem update_user_ok_cases (userId : Int) (upd : UserUpdate)
    (db : List User) (res : List User × User)
    (h : update_user userId upd db = Except.ok res) :
    ∃ i existing, findUserIdx userId db = some i ∧ db[i]? = some existing ∧
      res = (db.set i (upd.applyTo existing), upd.applyTo existing) := by
  unfold update_user at h
  cases hfi : findUserIdx userId db with
  | none => rw [hfi] at h; cases h
  | some i =>
    simp only [hfi] at h
    cases hex : db[i]? with
    | none => rw [hex] at h; cases h
    | some existing =>
      rw [hex] at h
      cases h
      exact ⟨i, existing, rfl, hex, rfl⟩

theorem delete_user_ok_cases (userId : Int) (db : List User)
    (res : List User × Message)
    (h : delete_user userId db = Except.ok res) :
    ∃ i, findUserIdx userId db = some i ∧
      res = (db.eraseIdx i,
        { message := "사용자 ID " ++ toString userId ++ "가 삭제되었습니다",
          status_code := 200 }) := by
  unfold delete_user at h
  cases hfi : findUserIdx userId db with
  | none => rw [hfi] at h; cases h
  | some i =>
    simp only [hfi] at h
    cases h
    exact ⟨i, rfl, rfl⟩

/-- Claim C1: when the id is present, `update_user` validates each field
present in the partial body with the same constraints as create
(`name` length in [2,50], `age` in [0,120]) and overwrites exactly the
corresponding stored fields; fields absent from the body are left
unchanged (so updating only `age` changes nothing but `age`); the updated
record is stored at the found index and returned. -/
theorem update_user_merge_spec (db : List User) (userId : Int)
    (upd : UserUpdate) (hval : upd.valid = true) (res : List User × User)
    (hres : update_user userId upd db = Except.ok res) :
    ∃ i existing, findUserIdx userId db = some i ∧ db[i]? = some existing ∧
      existing.id = userId ∧
      res.1 = db.set i res.2 ∧
      res.2.id = existing.id ∧
      res.2.name = upd.name.getD existing.name ∧
      res.2.email = upd.email.getD existing.email ∧
      res.2.age = upd.age.getD existing.age ∧
      res.2.role = upd.role.getD existing.role ∧
      res.2.is_active = upd.is_active.getD existing.is_active ∧
      (∀ s, upd.name = some (some s) → validName s = true) ∧
      (∀ a, upd.age = some (some a) → validAge a = true) := by
  obtain ⟨i, existing, hfi, hex, hpair⟩ :=
    update_user_ok_cases userId upd db res hres
  obtain ⟨u, hu, huid⟩ := findUserIdx_eq_some userId db i hfi
  have hue : u = existing := by rw [hu] at hex; cases hex; rfl
  subst hue
  subst hpair
  refine ⟨i, u, hfi, hex, huid, rfl, rfl, rfl, rfl, rfl, rfl, rfl, ?_, ?_⟩
  · intro s hs
    unfold UserUpdate.valid at hval
    rw [hs] at hval
    simp only [Bool.and_eq_true] at hval
    exact hval.1
  · intro a ha
    unfold UserUpdate.valid at hval
    rw [ha] at hval
    simp only [Bool.and_eq_true] at hval
    exact hval.2

/-- Witness for C1: updating only `age` on the seeded record with id 1. -/
theorem update_user_merge_spec_witness :
    ageOnlyUpd.valid = true ∧
    update_user 1 ageOnlyUpd seedDb =
      Except.ok (seedDb.set 0 seedUser1Updated, seedUser1Updated) ∧
    (∃ i existing, findUserIdx 1 seedDb = some i ∧
      seedDb[i]? = some existing ∧
      existing.id = 1 ∧
      (seedDb.set 0 seedUser1Updated, seedUser1Updated).1 =
        seedDb.set i (seedDb.set 0 seedUser1Updated, seedUser1Updated).2 ∧
      (seedDb.set 0 seedUser1Updated, seedUser1Updated).2.id = existing.id ∧
      (seedDb.set 0 seedUser1Updated, seedUser1Updated).2.name =
        ageOnlyUpd.name.getD existing.name ∧
      (seedDb.set 0 seedUser1Updated, seedUser1Updated).2.email =
        ageOnlyUpd.email.getD existing.email ∧
      (seedDb.set 0 seedUser1Updated, seedUser1Updated).2.age =
        ageOnlyUpd.age.getD existing.age ∧
      (seedDb.set 0 seedUser1Updated, seedUser1Updated).2.role =
        ageOnlyUpd.role.getD existing.role ∧
      (seedDb.set 0 seedUser1Updated, seedUser1Updated).2.is_active =
        ageOnlyUpd.is_active.getD existing.is_active ∧
      (∀ s, ageOnlyUpd.name = some (some s) → validName s = true) ∧
      (∀ a, ageOnlyUpd.age = some (some a) → validAge a = true)) :=
  ⟨rfl, rfl,
    update_user_merge_spec seedDb 1 ageOnlyUpd rfl
      (seedDb.set 0 seedUser1Updated, seedUser1Updated) rfl⟩

/-- Claim C3: for every valid creation request and every collection
state, `create_user` appends exactly one record at the end, the length
grows by one, and the new record's id is `1 + max(existing ids)` —
characterized order-theoretically: it is 1 on the empty collection,
strictly above every existing id, and one more than some existing id
otherwise. -/
theorem create_user_spec (c : UserCreate) (db : List User)
    (_hval : c.valid = true) :
    (create_user c db).1 = db ++ [(create_user c db).2] ∧
    (create_user c db).1.length = db.length + 1 ∧
    (db = [] → (create_user c db).2.id = 1) ∧
    (∀ u ∈ db, u.id < (create_user c db).2.id) ∧
    (db ≠ [] → ∃ u ∈ db, u.id + 1 = (create_user c db).2.id) := by
  refine ⟨rfl, by simp [create_user], ?_, ?_, ?_⟩
  · intro h
    subst h
    rfl
  · intro u hu
    exact mem_id_lt_newUserId db u hu
  · intro h
    exact newUserId_attained db h

/-- Witness for C3: creating a valid user on the seeded collection. -/
theorem create_user_spec_witness :
    demoCreate.valid = true ∧
    ((create_user demoCreate seedDb).1 =
      seedDb ++ [(create_user demoCreate seedDb).2] ∧
    (create_user demoCreate seedDb).1.length = seedDb.length + 1 ∧
    (seedDb = [] → (create_user demoCreate seedDb).2.id = 1) ∧
    (∀ u ∈ seedDb, u.id < (create_user demoCreate seedDb).2.id) ∧
    (seedDb ≠ [] → ∃ u ∈ seedDb,
      u.id + 1 = (create_user demoCreate seedDb).2.id)) :=
  ⟨rfl, create_user_spec demoCreate seedDb rfl⟩

/-- Claim C4: a creation request whose name violates the length
constraint `[2,50]` is rejected with ValidationError and the collection
is returned unchanged — no record is added and no existing record is
touched. -/
theorem post_users_invalid_name (c : UserCreate) (db : List User)
    (hbad : validName c.name = false) :
    post_users c db = (db, Except.error ApiError.validationError) := by
  simp [post_users, UserCreate.valid, hbad]

/-- Witness for C4: `name="A"` (length 1) against the seeded
collection. -/
theorem post_users_invalid_name_witness :
    validName badNameCreate.name = false ∧
    post_users badNameCreate seedDb =
      (seedDb, Except.error ApiError.validationError) :=
  ⟨rfl, post_users_invalid_name badNameCreate seedDb rfl⟩

/-- Claim C2 counterexample: the claim as stated is false — a user whose
age is present and `≥ min_age` need not appear in the result.  With
`min_age = 0` and a stored age of 0 (a creatable value, since the age
constraint is `[0,120]`), the source's truthiness test `u.age and ...`
drops the user. -/
theorem search_users_min_age_claim_false :
    ¬ (∀ (db : List User) (m : Int) (u : User), u ∈ db →
        (∃ a, u.age = some a ∧ m ≤ a) →
        ∃ l, search_users none none (some m) none db = Except.ok l ∧
          u ∈ l) := by
  intro h
  obtain ⟨l, hl, hu⟩ :=
    h [ageZeroUser] 0 ageZeroUser (by simp) ⟨0, rfl, le_refl 0⟩
  have he : search_users none none (some (0 : Int)) none [ageZeroUser] =
      Except.ok [] := rfl
  rw [he] at hl
  cases hl
  exact (List.not_mem_nil ageZeroUser) hu

/-- Claim C2 (amended): assuming every stored record has a name (the name
filter dereferences it), a user is in the search result iff it is in the
collection and passes every supplied filter; the `min_age` filter
requires the age to be present, NONZERO and `≥ min_age`, and `max_age`
requires it present, nonzero and `≤ max_age` (the source's truthiness
test also drops age 0); filters compose with AND, users without age are
excluded whenever an age filter is supplied, and `min_age=26` on the
seed data returns exactly the user aged 30. -/
theorem search_users_filter_spec (db : List User) (nameQ : Option String)
    (roleQ : Option UserRole) (mn mx : Option Int)
    (hnames : ∀ u ∈ db, u.name.isSome = true) :
    (∃ l, search_users nameQ roleQ mn mx db = Except.ok l ∧
      ∀ u, u ∈ l ↔ u ∈ db ∧ passName nameQ u = true ∧
        passRole roleQ u = true ∧ passMin mn u = true ∧
        passMax mx u = true) ∧
    (∀ m : Int, ∀ u : User, passMin (some m) u = true ↔
      ∃ a, u.age = some a ∧ a ≠ 0 ∧ m ≤ a) ∧
    (∀ m : Int, ∀ u : User, passMax (some m) u = true ↔
      ∃ a, u.age = some a ∧ a ≠ 0 ∧ a ≤ m) ∧
    (∀ u : User, u.age = none → passMin mn u = true → mn = none) ∧
    (∀ u : User, u.age = none → passMax mx u = true → mx = none) ∧
    search_users none none (some 26) none seedDb =
      Except.ok [seedUser2] := by
  have hall : db.all (fun u => u.name.isSome) = true := by
    rw [List.all_eq_true]
    exact hnames
  refine ⟨⟨_, search_users_ok nameQ roleQ mn mx db hall, ?_⟩,
    ?_, ?_, ?_, ?_, rfl⟩
  · intro u
    simp only [List.mem_filter, and_assoc]
  · intro m u
    cases ha : u.age with
    | none => simp [passMin, agePassesMin, ha]
    | some a => simp [passMin, agePassesMin, ha, and_assoc]
  · intro m u
    cases ha : u.age with
    | none => simp [passMax, agePassesMax, ha]
    | some a => simp [passMax, agePassesMax, ha, and_assoc]
  · intro u ha hp
    cases mn with
    | none => rfl
    | some m => simp [passMin, agePassesMin, ha] at hp
  · intro u ha hp
    cases mx with
    | none => rfl
    | some m => simp [passMax, agePassesMax, ha] at hp

/-- Witness for the amended C2: `min_age=26` against the seeded
collection. -/
theorem search_users_filter_spec_witness :
    (∀ u ∈ seedDb, u.name.isSome = true) ∧
    ((∃ l, search_users none none (some 26) none seedDb = Except.ok l ∧
      ∀ u, u ∈ l ↔ u ∈ seedDb ∧ passName none u = true ∧
        passRole none u = true ∧ passMin (some 26) u = true ∧
        passMax none u = true) ∧
    (∀ m : Int, ∀ u : User, passMin (some m) u = true ↔
      ∃ a, u.age = some a ∧ a ≠ 0 ∧ m ≤ a) ∧
    (∀ m : Int, ∀ u : User, passMax (some m) u = true ↔
      ∃ a, u.age = some a ∧ a ≠ 0 ∧ a ≤ m) ∧
    (∀ u : User, u.age = none → passMin (some 26) u = true →
      (some 26 : Option Int) = none) ∧
    (∀ u : User, u.age = none → passMax none u = true →
      (none : Option Int) = none) ∧
    search_users none none (some 26) none seedDb =
      Except.ok [seedUser2]) :=
  ⟨by decide,
    search_users_filter_spec seedDb none none (some 26) none (by decide)⟩

/-- Claim C5: ids are unique across the live collection at all times —
the seed ids are pairwise distinct, create preserves distinctness (the
fresh id is strictly greater than every stored id), update preserves the
stored id sequence entirely (it cannot change an id), and delete
preserves distinctness. -/
theorem ids_unique_invariant :
    ((seedDb.map (fun u => u.id)).Nodup) ∧
    (∀ (c : UserCreate) (db : List User), (db.map (fun u => u.id)).Nodup →
      ((create_user c db).1.map (fun u => u.id)).Nodup) ∧
    (∀ (userId : Int) (upd : UserUpdate) (db : List User)
      (res : List User × User), update_user userId upd db = Except.ok res →
      res.1.map (fun u => u.id) = db.map (fun u => u.id)) ∧
    (∀ (userId : Int) (db : List User) (res : List User × Message),
      delete_user userId db = Except.ok res →
      (db.map (fun u => u.id)).Nodup →
      (res.1.map (fun u => u.id)).Nodup) := by
  refine ⟨by decide, ?_, ?_, ?_⟩
  · intro c db hnd
    have hmap : (create_user c db).1.map (fun u => u.id) =
        db.map (fun u => u.id) ++ [newUserId db] := by
      simp [create_user]
    rw [hmap, List.nodup_append]
    refine ⟨hnd, List.nodup_singleton _, ?_⟩
    intro a ha hb
    rw [List.mem_singleton] at hb
    subst hb
    obtain ⟨u, hu, hid⟩ := List.mem_map.mp ha
    exact absurd hid (ne_of_lt (mem_id_lt_newUserId db u hu))
  · intro userId upd db res hok
    obtain ⟨i, existing, hfi, hex, hpair⟩ :=
      update_user_ok_cases userId upd db res hok
    subst hpair
    show (db.set i (upd.applyTo existing)).map (fun u => u.id) =
      db.map (fun u => u.id)
    rw [List.map_set]
    have hid : (upd.applyTo existing).id = existing.id := rfl
    rw [hid]
    apply list_set_of_getElem
    rw [List.getElem?_map, hex]
    rfl
  · intro userId db res hok hnd
    obtain ⟨i, hfi, hpair⟩ := delete_user_ok_cases userId db res hok
    subst hpair
    exact List.Sublist.nodup
      (List.Sublist.map _ (List.eraseIdx_sublist db i)) hnd

/-- Witness for C5: a create on the seeded collection keeps ids
distinct, an update of record 1 keeps the id sequence unchanged, and
deleting record 2 keeps ids distinct. -/
theorem ids_unique_invariant_witness :
    (seedDb.map (fun u => u.id)).Nodup ∧
    ((create_user demoCreate seedDb).1.map (fun u => u.id)).Nodup ∧
    ((seedDb.set 0 seedUser1Updated).map (fun u => u.id) =
      seedDb.map (fun u => u.id)) ∧
    ((seedDb.eraseIdx 1).map (fun u => u.id)).Nodup :=
  ⟨by decide,
    ids_unique_invariant.2.1 demoCreate seedDb (by decide),
    ids_unique_invariant.2.2.1 1 ageOnlyUpd seedDb
      (seedDb.set 0 seedUser1Updated, seedUser1Updated) rfl,
    ids_unique_invariant.2.2.2 2 seedDb
      (seedDb.eraseIdx 1,
        { message := "사용자 ID " ++ toString (2 : Int) ++ "가 삭제되었습니다",
          status_code := 200 }) rfl (by decide)⟩

/-- Claim C6: provided ids are pairwise distinct, `delete_user` fails
with NotFound exactly when the id is absent; on success it removes
exactly the record with that id (the length drops by one), returns a
confirmation message that contains the deleted id, with status code 200,
and a subsequent get of that id returns NotFound. -/
theorem delete_user_spec (db : List User) (userId : Int)
    (hnd : (db.map (fun u => u.id)).Nodup) :
    (delete_user userId db = Except.error ApiError.notFound ↔
      ∀ u ∈ db, u.id ≠ userId) ∧
    (∀ res, delete_user userId db = Except.ok res →
      res.1.length + 1 = db.length ∧
      (∃ i u, findUserIdx userId db = some i ∧ db[i]? = some u ∧
        u.id = userId ∧ res.1 = db.eraseIdx i) ∧
      res.2.status_code = 200 ∧
      (∃ pre post, res.2.message = pre ++ toString userId ++ post) ∧
      get_user userId res.1 = Except.error ApiError.notFound) := by
  constructor
  · constructor
    · intro he
      rw [← findUserIdx_eq_none_iff userId db]
      cases hfi : findUserIdx userId db with
      | none => rfl
      | some i =>
        unfold delete_user at he
        simp only [hfi] at he
        cases he
    · intro habs
      unfold delete_user
      rw [(findUserIdx_eq_none_iff userId db).mpr habs]
  · intro res hok
    obtain ⟨i, hfi, hpair⟩ := delete_user_ok_cases userId db res hok
    obtain ⟨u, hu, huid⟩ := findUserIdx_eq_some userId db i hfi
    subst hpair
    refine ⟨eraseIdx_length_succ db i u hu,
      ⟨i, u, hfi, hu, huid, rfl⟩, rfl,
      ⟨"사용자 ID ", "가 삭제되었습니다", rfl⟩, ?_⟩
    unfold get_user
    rw [findUser_eraseIdx userId db i hnd hfi]

/-- Witness for C6: deleting the seeded record with id 2. -/
theorem delete_user_spec_witness :
    (seedDb.map (fun u => u.id)).Nodup ∧
    ((delete_user 2 seedDb = Except.error ApiError.notFound ↔
      ∀ u ∈ seedDb, u.id ≠ 2) ∧
    (∀ res, delete_user 2 seedDb = Except.ok res →
      res.1.length + 1 = seedDb.length ∧
      (∃ i u, findUserIdx 2 seedDb = some i ∧ seedDb[i]? = some u ∧
        u.id = 2 ∧ res.1 = seedDb.eraseIdx i) ∧
      res.2.status_code = 200 ∧
      (∃ pre post, res.2.message = pre ++ toString (2 : Int) ++ post) ∧
      get_user 2 res.1 = Except.error ApiError.notFound)) :=
  ⟨by decide, delete_user_spec seedDb 2 (by decide)⟩

/-- Claim C7: for every collection state, `get_stats` returns the
collection length as total, the number of users whose `is_active` is
`true` as active, total minus active as inactive, and a role histogram
in which exactly the roles held by at least one user appear as keys,
each mapped to the number of its holders; on the seed data this is
3/3/0 with `{user: 2, admin: 1}`. -/
theorem get_stats_spec :
    (∀ db : List User,
      (get_stats db).total_users = db.length ∧
      (get_stats db).active_users =
        db.countP (fun u => u.is_active == some true) ∧
      (get_stats db).inactive_users =
        (get_stats db).total_users - (get_stats db).active_users ∧
      (∀ r, getCount (get_stats db).role_distribution r =
        if db.countP (fun u => decide (u.role = r)) = 0 then none
        else some (db.countP (fun u => decide (u.role = r))))) ∧
    get_stats seedDb =
      { total_users := 3, active_users := 3, inactive_users := 0,
        role_distribution :=
          [(some UserRole.USER, 2), (some UserRole.ADMIN, 1)] } := by
  refine ⟨?_, rfl⟩
  intro db
  refine ⟨rfl, (List.countP_eq_length_filter _ db).symm, rfl, ?_⟩
  intro r
  have h := getCount_foldl_bumpRole db [] r
  simp only [getCount, Option.getD_none] at h
  have hrd : (get_stats db).role_distribution =
      db.foldl (fun a u => bumpRole a u.role) [] := rfl
  rw [hrd, h]
  by_cases h0 : db.countP (fun u => decide (u.role = r)) = 0
  · rw [if_pos h0, if_pos h0]
  · rw [if_neg h0, if_neg h0, Nat.zero_add]

/-- Claim C8: searching with no parameters supplied returns the whole
collection unchanged, in order, with no error, for every collection
state. -/
theorem search_users_no_params_identity (db : List User) :
    search_users none none none none db = Except.ok db := rfl

/-- Claim C9: an update field explicitly present with value `null` is
treated as present, not omitted: the stored field is overwritten with
`null`.  The explicitly-null-name body passes validation, applying any
such body nulls the stored name, doing so on the seeded record with id 1
stores a record whose name is `null` — even though every validated
create stores a name of length in [2,50]. -/
theorem update_user_explicit_null_name :
    nullNameUpd.valid = true ∧
    (∀ (upd : UserUpdate) (u : User), upd.name = some none →
      (upd.applyTo u).name = none) ∧
    (∃ res, update_user 1 nullNameUpd seedDb = Except.ok res ∧
      res.2.name = none ∧
      res.1.map (fun u => u.name) =
        [none, some "이영희", some "박민수"]) ∧
    (∀ (c : UserCreate) (db : List User), c.valid = true →
      (create_user c db).2.name = some c.name ∧
      2 ≤ c.name.length ∧ c.name.length ≤ 50) := by
  refine ⟨rfl, ?_, ⟨_, rfl, rfl, rfl⟩, ?_⟩
  · intro upd u h
    simp [UserUpdate.applyTo, h]
  · intro c db hv
    refine ⟨rfl, ?_, ?_⟩
    · unfold UserCreate.valid validName at hv
      simp only [Bool.and_eq_true, decide_eq_true_eq] at hv
      exact hv.1.1
    · unfold UserCreate.valid validName at hv
      simp only [Bool.and_eq_true, decide_eq_true_eq] at hv
      exact hv.1.2

/-- Witness for C9: the explicit-null merge on the first seeded record,
and the created-name facts at a concrete valid create. -/
theorem update_user_explicit_null_name_witness :
    nullNameUpd.name = some none ∧
    (nullNameUpd.applyTo seedUser1Updated).name = none ∧
    demoCreate.valid = true ∧
    ((create_user demoCreate seedDb).2.name = some demoCreate.name ∧
      2 ≤ demoCreate.name.length ∧ demoCreate.name.length ≤ 50) :=
  ⟨rfl, update_user_explicit_null_name.2.1 nullNameUpd seedUser1Updated rfl,
    rfl, update_user_explicit_null_name.2.2.2 demoCreate seedDb rfl⟩

/-- Claim C10: a search whose `name` parameter is the empty string
behaves exactly as if no name filter were supplied (Python's `if name:`
is false for the empty string); in particular, with no other filters it
returns the entire collection. -/
theorem search_users_empty_name (db : List User) (roleQ : Option UserRole)
    (mn mx : Option Int) :
    search_users (some "") roleQ mn mx db =
      search_users none roleQ mn mx db ∧
    search_users (some "") none none none db = Except.ok db :=
  ⟨rfl, rfl⟩
